import Mathlib

/-!
Verification of the placeholder-substitution core of `src/app.py`
(Wordscreate).  Text is modelled as `List Char`; Python's `re` operations,
as used by the program, reduce to matching the four fixed pattern shapes
`open ++ \s* ++ interior ++ \s* ++ close`, where the interior is either a
literal escaped key (`pattern.replace(r'(.*?)', re.escape(key))`, lines
51/63/78/128) or the lazy capture group `(.*?)` (line 43).
-/

deriving instance DecidableEq for Except

namespace Wordscreate

abbrev Str := List Char

/-- The characters Python's `\s` matches in the ASCII range (the inputs the
program feeds the engine); also the set `str.strip()` removes there. -/
def isPySpace (c : Char) : Bool :=
  c = ' ' || c = '\t' || c = '\n' || c = '\r' || c = '\x0b' || c = '\x0c'

/-- The four placeholder syntaxes of
`PlaceholderHandler.PLACEHOLDER_PATTERNS` (src/app.py lines 31-36), in
their fixed priority order. -/
inductive Pat where
  | dbrace
  | dollar
  | sbrace
  | dbracket
deriving DecidableEq, Repr

/-- Literal opening marker of each syntax. -/
def Pat.op : Pat → Str
  | .dbrace => ['\x7b', '\x7b']
  | .dollar => ['$', '\x7b']
  | .sbrace => ['\x7b']
  | .dbracket => ['[', '[']

/-- Literal closing marker of each syntax. -/
def Pat.cl : Pat → Str
  | .dbrace => ['\x7d', '\x7d']
  | .dollar => ['\x7d']
  | .sbrace => ['\x7d']
  | .dbracket => [']', ']']

/-- `PLACEHOLDER_PATTERNS` (line 31): the list the code iterates over. -/
def PLACEHOLDER_PATTERNS : List Pat := [.dbrace, .dollar, .sbrace, .dbracket]

/-- Length of the leading whitespace run (what a greedy `\s*` consumes). -/
def wsRun (s : Str) : Nat := (s.takeWhile isPySpace).length

/-- After the leading `\s*` has consumed its characters, match
`key \s* close` at `r`.  The trailing `\s*` is greedy; since every close
marker starts with a non-whitespace character, only the maximal whitespace
run can be followed by the close marker, so no backtracking is needed on
it.  Returns the number of characters consumed. -/
def matchKeyClose (key cl r : Str) : Option Nat :=
  if key.isPrefixOf r then
    let r2 := r.drop key.length
    let b := wsRun r2
    if cl.isPrefixOf (r2.drop b) then some (key.length + b + cl.length) else none
  else none

/-- Backtracking over the leading `\s*` of the wrapped-key pattern: greedy,
so the largest whitespace count is tried first, decreasing until the
literal key (which may itself begin with whitespace) lines up. -/
def tryLeadWs (key cl r : Str) : Nat → Option Nat
  | 0 => matchKeyClose key cl r
  | a + 1 =>
    match matchKeyClose key cl (r.drop (a + 1)) with
    | some n => some (a + 1 + n)
    | none => tryLeadWs key cl r a

/-- Match, at the start of `s`, the regex built by
`pattern.replace(r'(.*?)', re.escape(key))`: literal open marker, `\s*`,
the literal key, `\s*`, literal close marker.  Returns the matched
length. -/
def matchWrappedAt (p : Pat) (key : Str) (s : Str) : Option Nat :=
  if p.op.isPrefixOf s then
    let r := s.drop p.op.length
    (tryLeadWs key p.cl r (wsRun r)).map (fun n => p.op.length + n)
  else none

/-- `re.search(wrapped_key, text)` (lines 52, 64, 129): some position of
`text` starts a match. -/
def reSearchWrapped (p : Pat) (key : Str) : Str → Bool
  | [] => (matchWrappedAt p key []).isSome
  | c :: rest => (matchWrappedAt p key (c :: rest)).isSome || reSearchWrapped p key rest

/-- Drop up to two octal digits (the tail of an octal escape `\0oo` in a
replacement template). -/
def dropOct2 : Str → Str
  | [] => []
  | c1 :: r1 =>
    if '0' ≤ c1 && c1 ≤ '7' then
      match r1 with
      | [] => []
      | c2 :: r2 => if '0' ≤ c2 && c2 ≤ '7' then r2 else c2 :: r2
    else c1 :: r1

/-- Validity of a string replacement template for a pattern with zero
capture groups.  Python's `re.sub` parses the template eagerly (before
scanning for matches), raising on: a trailing backslash, a group
reference `\1`..`\9` or `\g<n>` with `n ≥ 1` (the wrapped-key patterns
have no groups), a malformed or non-numeric `\g<...>`, and an unknown
ASCII-letter escape.  `\\`, `\g<0>`, `\0oo`, `\a \b \f \n \r \t \v`, and a
backslash before a non-alphanumeric character are accepted.  Fueled (one
unit per template character); the wrapper passes the template length. -/
def templateOkF (matched : Unit) : Nat → Str → Bool
  | 0, s => s.isEmpty
  | _ + 1, [] => true
  | fuel + 1, c0 :: rest =>
    if c0 = '\\' then
      match rest with
      | [] => false
      | c :: r =>
        if c = '\\' then templateOkF matched fuel r
        else if c = 'g' then
          match r with
          | '<' :: r2 =>
            let name := r2.takeWhile (fun x => x ≠ '>')
            match r2.drop name.length with
            | '>' :: r3 =>
              if name.isEmpty then false
              else if name.all Char.isDigit then
                if name.all (fun d => d = '0') then templateOkF matched fuel r3
                else false
              else false
            | _ => false
          | _ => false
        else if c = '0' then templateOkF matched fuel (dropOct2 r)
        else if c.isDigit then false
        else if c = 'a' || c = 'b' || c = 'f' || c = 'n' || c = 'r' || c = 't' || c = 'v' then
          templateOkF matched fuel r
        else if c.isAlpha then false
        else templateOkF matched fuel r
    else templateOkF matched fuel rest

/-- Eager validity check of a replacement template (see `templateOkF`). -/
def templateOk (tmpl : Str) : Bool := templateOkF () tmpl.length tmpl

/-- Decoded character of the letter escapes valid in replacement
templates. -/
def escChar (c : Char) : Char :=
  if c = 'a' then '\x07'
  else if c = 'b' then '\x08'
  else if c = 'f' then '\x0c'
  else if c = 'n' then '\n'
  else if c = 'r' then '\r'
  else if c = 't' then '\t'
  else '\x0b'

/-- Expand a replacement template that passed `templateOk` against the
matched text: `\g<0>` (and `\g<00>` etc.) inserts the whole match, `\\`
a backslash, `\0oo` the NUL/octal character, letter escapes their control
character; a backslash before any other non-alphanumeric character is
kept verbatim.  Fueled; the wrapper passes the template length. -/
def expandF (matched : Str) : Nat → Str → Str
  | 0, _ => []
  | _ + 1, [] => []
  | fuel + 1, c0 :: rest =>
    if c0 = '\\' then
      match rest with
      | [] => []
      | c :: r =>
        if c = '\\' then '\\' :: expandF matched fuel r
        else if c = 'g' then
          match r with
          | '<' :: r2 =>
            let name := r2.takeWhile (fun x => x ≠ '>')
            matched ++ expandF matched fuel (r2.drop (name.length + 1))
          | _ => []
        else if c = '0' then '\x00' :: expandF matched fuel (dropOct2 r)
        else if c = 'a' || c = 'b' || c = 'f' || c = 'n' || c = 'r' || c = 't' || c = 'v' then
          escChar c :: expandF matched fuel r
        else '\\' :: c :: expandF matched fuel r
    else c0 :: expandF matched fuel rest

/-- Expand a validated replacement template against the matched text. -/
def expandRepl (matched tmpl : Str) : Str := expandF matched tmpl.length tmpl

/-- The scanning pass of `re.sub` for a wrapped-key pattern: left to
right, non-overlapping; each match is replaced by the expanded template
and scanning resumes after it.  Fueled (each step consumes at least one
character and one fuel unit); the wrapper passes the text length. -/
def subScanF (p : Pat) (key tmpl : Str) : Nat → Str → Str
  | 0, s => s
  | fuel + 1, s =>
    match s with
    | [] => []
    | c :: rest =>
      match matchWrappedAt p key (c :: rest) with
      | some n =>
        expandRepl ((c :: rest).take n) tmpl ++ subScanF p key tmpl fuel ((c :: rest).drop n)
      | none => c :: subScanF p key tmpl fuel rest

/-- `re.sub(wrapped_key, value, text)` (lines 53, 79, 130): the
replacement template is parsed before any scanning, so an invalid
template raises even when the pattern never matches. -/
def reSubWrapped (p : Pat) (key val text : Str) : Except Unit Str :=
  if templateOk val then .ok (subScanF p key val text.length text) else .error ()

/-- The lazy interior of the generic pattern: `(.*?)\s*close` starting at
`s`.  `k` (first component) is the minimal number of characters the lazy
group must consume before the maximal trailing whitespace run (second
component) is followed by the close marker; `.` does not match a newline.
Greedy backtracking on the leading `\s*` is not needed by the caller: `.`
matches every non-newline character including whitespace, so a completion
available after skipping fewer leading whitespace characters is also
available after skipping the full run. -/
def goLazy (cl : Str) : Str → Option (Nat × Nat)
  | [] => if cl.isEmpty then some (0, 0) else none
  | c :: rest =>
    let b := wsRun (c :: rest)
    if cl.isPrefixOf ((c :: rest).drop b) then some (0, b)
    else if c = '\n' then none
    else (goLazy cl rest).map (fun q => (q.1 + 1, q.2))

/-- Match, at the start of `s`, one generic pattern
`open \s* (.*?) \s* close` (lines 31-36) with Python's semantics: the
leading `\s*` greedy, the capture lazy.  Returns the capture and the
matched length. -/
def matchLazyAt (p : Pat) (s : Str) : Option (Str × Nat) :=
  if p.op.isPrefixOf s then
    match goLazy p.cl ((s.drop p.op.length).drop (wsRun (s.drop p.op.length))) with
    | some q =>
      some (((s.drop p.op.length).drop (wsRun (s.drop p.op.length))).take q.1,
        p.op.length + wsRun (s.drop p.op.length) + q.1 + q.2 + p.cl.length)
    | none => none
  else none

/-- The scanning pass of `re.findall` for one generic pattern: left to
right, non-overlapping, collecting the captures.  Fueled; the wrapper
passes the text length. -/
def findScanF (p : Pat) : Nat → Str → List Str
  | 0, _ => []
  | fuel + 1, s =>
    match s with
    | [] => []
    | c :: rest =>
      match matchLazyAt p (c :: rest) with
      | some q => q.1 :: findScanF p fuel ((c :: rest).drop q.2)
      | none => findScanF p fuel rest

/-- `re.findall(pattern, text)` (line 43) for one generic pattern. -/
def reFindall (p : Pat) (text : Str) : List Str := findScanF p text.length text

/-- `PlaceholderHandler.find_placeholders` (lines 38-45): collect the
captures of all four patterns, then `list(set(...))` — de-duplicated,
order not significant (modelled by `List.dedup`). -/
def find_placeholders (text : Str) : List Str :=
  ((PLACEHOLDER_PATTERNS.map (fun p => reFindall p text)).flatten).dedup

/-- A paragraph, as the substitution engine sees it: the ordered texts of
its formatting runs (python-docx `Paragraph.runs`; style attributes play
no role in the text contract). -/
structure Paragraph where
  runs : List Str
deriving DecidableEq, Repr

/-- python-docx `Paragraph.text`: the concatenation of the run texts —
also the full text the code builds at line 72 by joining the run texts
with the empty separator. -/
def Paragraph.text (p : Paragraph) : Str := p.runs.flatten

/-- One spreadsheet row as the code uses it: `row.to_dict()` (line 202), a
name-to-string mapping with unique keys, iterated in insertion order. -/
abbrev Row := List (Str × Str)

/-- `replacements.get(placeholder, '')` (line 76): Python dict lookup with
default empty string. -/
def rowGet (repl : Row) (k : Str) : Str :=
  match repl.find? (fun kv => kv.1 == k) with
  | some kv => kv.2
  | none => []

/-- Lines 58-66: the keys of `replacements`, in mapping iteration order,
whose wrapped pattern is found in `paragraph.text` by at least one of the
four syntaxes (the inner loop breaks at the first syntax that hits). -/
def detectKeys (repl : Row) (text : Str) : List Str :=
  (repl.filter (fun kv =>
    PLACEHOLDER_PATTERNS.any (fun p => reSearchWrapped p kv.1 text))).map Prod.fst

/-- Lines 74-79: for each detected placeholder in order, substitute all
four wrapped patterns; `re.sub` raises on a bad replacement template. -/
def substituteAll (repl : Row) (keys : List Str) (text : Str) : Except Unit Str :=
  keys.foldlM (fun t k =>
    PLACEHOLDER_PATTERNS.foldlM (fun t2 p => reSubWrapped p k (rowGet repl k) t2) t) text

/-- `replace_text_in_paragraph` (src/app.py lines 56-88): detect the
mapping's keys present in the paragraph text; if none, return the
paragraph untouched; otherwise substitute them all in the concatenated
text, clear every run and write the result into the first run (adding a
run if the paragraph had none).  An uncaught `re.error` is modelled as
`.error ()`. -/
def replace_text_in_paragraph (p : Paragraph) (repl : Row) : Except Unit Paragraph :=
  let keys := detectKeys repl p.text
  if keys.isEmpty then .ok p
  else do
    let full ← substituteAll repl keys p.text
    match p.runs with
    | [] => .ok ⟨[full]⟩
    | _ :: rest => .ok ⟨full :: rest.map (fun _ => [])⟩

/-- The characters removed by `re.sub(r'[\\/*?:"<>|]', "", filename)`
(line 137). -/
def isIllegalFilenameChar (c : Char) : Bool :=
  c = '\\' || c = '/' || c = '*' || c = '?' || c = ':' || c = '"' ||
    c = '<' || c = '>' || c = '|'

/-- Line 137, first half: strip the filesystem-illegal characters. -/
def sanitizeFilename (s : Str) : Str := s.filter (fun c => !(isIllegalFilenameChar c))

/-- Python `str.strip()` (line 137): remove leading and trailing
whitespace. -/
def pyStrip (s : Str) : Str :=
  ((s.dropWhile isPySpace).reverse.dropWhile isPySpace).reverse

/-- Lines 126-130 of `generate_output_filename`: for every key of the
row, in iteration order, and each pattern in order, substitute the
wrapped key into the current filename if it is found there. -/
def substituteFilename (row : Row) (template : Str) : Except Unit Str :=
  row.foldlM (fun fn kv =>
    PLACEHOLDER_PATTERNS.foldlM (fun f p =>
      if reSearchWrapped p kv.1 f then reSubWrapped p kv.1 kv.2 f else .ok f) fn) template

/-- `generate_output_filename` (lines 121-138), with the
`datetime.datetime.now().strftime("%Y%m%d%H%M%S")` timestamp supplied as
an argument: substitute the row into the template, append
`_` + timestamp, remove illegal characters, strip surrounding
whitespace, truncate to 100 characters, then append the fixed `.docx`
extension. -/
def generate_output_filename (row : Row) (filename_template ts : Str) : Except Unit Str := do
  let fn ← substituteFilename row filename_template
  let fn2 := pyStrip (sanitizeFilename (fn ++ '_' :: ts))
  .ok (fn2.take 100 ++ ".docx".toList)

/-- One section's header and footer paragraphs. -/
structure DocSection where
  header : List Paragraph
  footer : List Paragraph
deriving DecidableEq, Repr

/-- A document as `process_document` walks it: body paragraphs, tables
(table → row → cell → paragraphs), and per-section header/footer
paragraphs. -/
structure Doc where
  paragraphs : List Paragraph
  tables : List (List (List (List Paragraph)))
  sections : List DocSection
deriving DecidableEq, Repr

/-- `process_document` (lines 90-119), with the fresh template parse
passed as a value: substitute in every body paragraph, then every table
row cell paragraph, then every section's header and then footer
paragraphs; on success the mutated document is saved (returned as
`some`), on any raised error the `except` branch reports failure and the
save step is skipped (`none`). -/
def process_document (doc : Doc) (repl : Row) : Option Doc :=
  (do
    let ps ← doc.paragraphs.mapM (fun p => replace_text_in_paragraph p repl)
    let ts ← doc.tables.mapM (fun t => t.mapM (fun r => r.mapM (fun cell =>
      cell.mapM (fun p => replace_text_in_paragraph p repl))))
    let ss ← doc.sections.mapM (fun s => do
      let hs ← s.header.mapM (fun p => replace_text_in_paragraph p repl)
      let fs ← s.footer.mapM (fun p => replace_text_in_paragraph p repl)
      pure (⟨hs, fs⟩ : DocSection))
    pure (⟨ps, ts, ss⟩ : Doc) : Except Unit Doc).toOption

/-- What the batch loop accumulates (lines 182-214): the
`generated_files` records (modelled as row index and filename) and
`success_count`. -/
structure BatchResult where
  records : List (Nat × Str)
  successCount : Nat
deriving DecidableEq, Repr

/-- The body of the batch loop for one indexed row (lines 196-214):
generate the output filename — an error raised there is only caught by
the outer `try` of line 175, aborting the whole batch — then run
`process_document` against the template; a row whose document processes
successfully appends a record and bumps `success_count`, a failed row is
skipped. -/
def batchStep (templateDoc : Doc) (filename_template ts : Str) (acc : BatchResult)
    (ir : Nat × Row) : Except Unit BatchResult := do
  let fname ← generate_output_filename ir.2 filename_template ts
  match process_document templateDoc ir.2 with
  | some _ => .ok ⟨acc.records ++ [(ir.1, fname)], acc.successCount + 1⟩
  | none => .ok acc

/-- The module-level batch block's row loop (lines 195-214): fold
`batchStep` over the indexed rows, starting from no records and zero
successes. -/
def runBatch (rows : List Row) (templateDoc : Doc) (filename_template ts : Str) :
    Except Unit BatchResult :=
  rows.enum.foldlM (batchStep templateDoc filename_template ts) ⟨[], 0⟩

/-- The rows of a batch whose per-document processing raises (caught at
line 117): they produce no record and no saved output. -/
def failedCount (rows : List Row) (templateDoc : Doc) : Nat :=
  (rows.filter (fun r => (process_document templateDoc r).isNone)).length

/-- Characters of a plain placeholder name: no braces, no bracket, no
dollar, no whitespace. -/
def simpleNameChar (c : Char) : Bool :=
  !(c = '\x7b' || c = '\x7d' || c = '$' || c = '[' || c = ']' || isPySpace c)

/-- A plain placeholder name: nonempty, made of `simpleNameChar`s. -/
def SimpleName (s : Str) : Prop := s ≠ [] ∧ ∀ c ∈ s, simpleNameChar c = true

/-- First character of each syntax's opening marker. -/
def opHead : Pat → Char
  | .dbrace => '\x7b'
  | .dollar => '$'
  | .sbrace => '\x7b'
  | .dbracket => '['

/-- First character of each syntax's closing marker. -/
def clHead : Pat → Char
  | .dbrace => '\x7d'
  | .dollar => '\x7d'
  | .sbrace => '\x7d'
  | .dbracket => ']'

/-- No opening marker starts anywhere inside `u` (relative to the
continuation `v`). -/
def NoOp (p : Pat) (u v : Str) : Prop :=
  ∀ i, i < u.length → p.op.isPrefixOf (u.drop i ++ v) = false


/-- The canonical template text containing exactly one occurrence of a
placeholder in each of the four syntaxes, space-separated. -/
def canonicalText (n1 n2 n3 n4 : Str) : Str :=
  ['\x7b', '\x7b'] ++ n1 ++ ['\x7d', '\x7d', ' ', '$', '\x7b'] ++ n2 ++
    ['\x7d', ' ', '\x7b'] ++ n3 ++ ['\x7d', ' ', '[', '['] ++ n4 ++ [']', ']']

/-! ### Helper lemmas about the substitution engine -/

/-- If no key is detected, the detected-key list is empty. -/
lemma detectKeys_eq_nil {repl : Row} {text : Str}
    (h : ∀ kv ∈ repl, ∀ pat ∈ PLACEHOLDER_PATTERNS, reSearchWrapped pat kv.1 text = false) :
    detectKeys repl text = [] := by
  unfold detectKeys
  rw [List.map_eq_nil_iff, List.filter_eq_nil_iff]
  intro kv hkv
  simp only [List.any_eq_true, not_exists, not_and, Bool.not_eq_true]
  intro pat hpat
  exact h kv hkv pat hpat

/-- The engine's short-circuit: an empty detected-key list returns the
paragraph untouched. -/
lemma replace_noop {p : Paragraph} {repl : Row}
    (h : detectKeys repl p.text = []) :
    replace_text_in_paragraph p repl = .ok p := by
  simp [replace_text_in_paragraph, h]

/-- A backslash-free replacement template always validates. -/
lemma templateOkF_of_no_backslash :
    ∀ (fuel : Nat) (s : Str), '\\' ∉ s → s.length ≤ fuel → templateOkF () fuel s = true := by
  intro fuel
  induction fuel with
  | zero =>
    intro s h hl
    have : s = [] := List.eq_nil_of_length_eq_zero (Nat.le_zero.mp hl)
    subst this
    rfl
  | succ n ih =>
    intro s h hl
    cases s with
    | nil => rfl
    | cons c rest =>
      have hc : ¬(c = '\\') := by
        intro hEq
        exact h (hEq ▸ List.mem_cons_self c rest)
      unfold templateOkF
      rw [if_neg hc]
      exact ih rest (fun hm => h (List.mem_cons_of_mem c hm))
        (Nat.le_of_succ_le_succ (by simpa using hl))

/-- A backslash-free replacement template validates. -/
lemma templateOk_of_no_backslash {s : Str} (h : '\\' ∉ s) : templateOk s = true :=
  templateOkF_of_no_backslash _ _ h le_rfl

/-- With a valid template, `re.sub` returns normally. -/
lemma reSubWrapped_ok {v : Str} (p : Pat) (k t : Str) (h : templateOk v = true) :
    reSubWrapped p k v t = .ok (subScanF p k v t.length t) := by
  simp [reSubWrapped, h]

/-- With a valid template, a substitution pass over any pattern list
returns normally. -/
lemma foldPatsList_ok {v : Str} (k : Str) (h : templateOk v = true) :
    ∀ (ps : List Pat) (t : Str),
      ∃ u, ps.foldlM (fun t2 p => reSubWrapped p k v t2) t = .ok u := by
  intro ps
  induction ps with
  | nil => exact fun t => ⟨t, rfl⟩
  | cons p ps ih =>
    intro t
    obtain ⟨u, hu⟩ := ih (subScanF p k v t.length t)
    refine ⟨u, ?_⟩
    rw [List.foldlM_cons, reSubWrapped_ok p k t h]
    exact hu

/-- With a valid template, the four-pattern substitution pass of one key
returns normally. -/
lemma foldPats_ok {v : Str} (k : Str) (h : templateOk v = true) (t : Str) :
    ∃ u, PLACEHOLDER_PATTERNS.foldlM (fun t2 p => reSubWrapped p k v t2) t = .ok u :=
  foldPatsList_ok k h PLACEHOLDER_PATTERNS t

/-- When every detected key's value has a valid template, the whole
substitution pass returns normally. -/
lemma substituteAll_ok (repl : Row) (keys : List Str) (text : Str)
    (h : ∀ k ∈ keys, templateOk (rowGet repl k) = true) :
    ∃ s, substituteAll repl keys text = .ok s := by
  induction keys generalizing text with
  | nil => exact ⟨text, rfl⟩
  | cons k ks ih =>
    obtain ⟨u, hu⟩ := foldPats_ok k (h k (List.mem_cons_self k ks)) text
    obtain ⟨s, hs⟩ := ih u (fun k2 hk2 => h k2 (List.mem_cons_of_mem k hk2))
    refine ⟨s, ?_⟩
    unfold substituteAll at hs ⊢
    rw [List.foldlM_cons, hu]
    exact hs

/-- A dict lookup into a mapping with backslash-free values is
backslash-free. -/
lemma rowGet_no_backslash (repl : Row) (k : Str)
    (hv : ∀ kv ∈ repl, '\\' ∉ kv.2) : '\\' ∉ rowGet repl k := by
  unfold rowGet
  cases hfind : repl.find? (fun kv => kv.1 == k) with
  | none => exact List.not_mem_nil _
  | some kv => exact hv kv (List.mem_of_find?_eq_some hfind)

/-! ### Claims C1, C2, C3, C6, C10 -/

/-- C1: for the data mapping `a ↦ "X", ab ↦ "Y"` and a paragraph whose
text is the double-brace marker for `ab` followed by the one for `a`,
substitution produces the text `"YX"` under either iteration order of the
mapping's keys. -/
theorem C1_name_collision_determinism :
    replace_text_in_paragraph ⟨["\x7b\x7bab\x7d\x7d\x7b\x7ba\x7d\x7d".toList]⟩
        [("a".toList, "X".toList), ("ab".toList, "Y".toList)] = .ok ⟨["YX".toList]⟩ ∧
    replace_text_in_paragraph ⟨["\x7b\x7bab\x7d\x7d\x7b\x7ba\x7d\x7d".toList]⟩
        [("ab".toList, "Y".toList), ("a".toList, "X".toList)] = .ok ⟨["YX".toList]⟩ := by
  constructor
  · decide
  · decide

/-- C2: when no key of the mapping occurs in the paragraph's text wrapped
in any of the four placeholder syntaxes, substitution returns the
paragraph structurally identical to the input (same runs, same texts). -/
theorem C2_noop_when_nothing_found (p : Paragraph) (repl : Row)
    (h : ∀ kv ∈ repl, ∀ pat ∈ PLACEHOLDER_PATTERNS,
      reSearchWrapped pat kv.1 p.text = false) :
    replace_text_in_paragraph p repl = .ok p :=
  replace_noop (detectKeys_eq_nil h)

/-- Witness for C2 at a concrete input. -/
theorem C2_noop_when_nothing_found_witness :
    replace_text_in_paragraph ⟨["hello ".toList, "world".toList]⟩
        [("name".toList, "Alice".toList)] = .ok ⟨["hello ".toList, "world".toList]⟩ :=
  C2_noop_when_nothing_found ⟨["hello ".toList, "world".toList]⟩
    [("name".toList, "Alice".toList)] (by decide)

/-- C3: when at least one key's placeholder is detected and substitution
completes, the first run of the result carries the fully substituted
concatenation of the original run texts, every other run is emptied, and
the run count is unchanged (a run is created only for a paragraph that
had none). -/
theorem C3_first_run_carries_text (p : Paragraph) (repl : Row) (p' : Paragraph)
    (hne : detectKeys repl p.text ≠ [])
    (hok : replace_text_in_paragraph p repl = .ok p') :
    substituteAll repl (detectKeys repl p.text) p.text = .ok (p'.runs.headD []) ∧
    (∀ r ∈ p'.runs.tail, r = ([] : Str)) ∧
    p'.runs.length = (if p.runs = [] then 1 else p.runs.length) := by
  unfold replace_text_in_paragraph at hok
  rw [if_neg (by simpa [List.isEmpty_iff] using hne)] at hok
  cases hs : substituteAll repl (detectKeys repl p.text) p.text with
  | error e =>
    rw [hs] at hok
    simp [Bind.bind, Except.bind] at hok
  | ok full =>
    rw [hs] at hok
    simp only [Bind.bind, Except.bind] at hok
    cases hruns : p.runs with
    | nil =>
      rw [hruns] at hok
      have hp' : p' = ⟨[full]⟩ := by
        cases hok
        rfl
      subst hp'
      refine ⟨rfl, ?_, by simp⟩
      intro r hr
      simp at hr
    | cons r0 rest =>
      rw [hruns] at hok
      have hp' : p' = ⟨full :: rest.map (fun _ => ([] : Str))⟩ := by
        cases hok
        rfl
      subst hp'
      refine ⟨rfl, ?_, ?_⟩
      · intro r hr
        simp only [List.tail_cons, List.mem_map] at hr
        obtain ⟨x, hx1, hx2⟩ := hr
        exact hx2.symm
      · simp

/-- Witness for C3 at a concrete input. -/
theorem C3_first_run_carries_text_witness :
    substituteAll [("name".toList, "Alice".toList)]
        (detectKeys [("name".toList, "Alice".toList)]
          (Paragraph.text ⟨["Hi ".toList, "\x7b\x7bname\x7d\x7d".toList]⟩))
        (Paragraph.text ⟨["Hi ".toList, "\x7b\x7bname\x7d\x7d".toList]⟩) =
      .ok ((⟨["Hi Alice".toList, [] ]⟩ : Paragraph).runs.headD []) ∧
    (∀ r ∈ (⟨["Hi Alice".toList, [] ]⟩ : Paragraph).runs.tail, r = ([] : Str)) ∧
    (⟨["Hi Alice".toList, [] ]⟩ : Paragraph).runs.length =
      (if (⟨["Hi ".toList, "\x7b\x7bname\x7d\x7d".toList]⟩ : Paragraph).runs = [] then 1
        else (⟨["Hi ".toList, "\x7b\x7bname\x7d\x7d".toList]⟩ : Paragraph).runs.length) :=
  C3_first_run_carries_text ⟨["Hi ".toList, "\x7b\x7bname\x7d\x7d".toList]⟩
    [("name".toList, "Alice".toList)] ⟨["Hi Alice".toList, [] ]⟩ (by decide) (by decide)

/-- C6 counterexample: the engine can raise: with value `\1` (an invalid
group reference as a replacement template) for key `a`, substitution on
the paragraph `{{a}}` errors instead of never failing. -/
theorem C6_counterexample_engine_raises :
    replace_text_in_paragraph ⟨["\x7b\x7ba\x7d\x7d".toList]⟩
        [("a".toList, "\\1".toList)] = .error () := by
  decide

/-- C6 amended: provided no value of the mapping contains a backslash,
the engine never raises; and a paragraph in which no key's marker is
found is returned with its text (raw markers included) verbatim. -/
theorem C6_amended_never_raises (p : Paragraph) (repl : Row)
    (hv : ∀ kv ∈ repl, '\\' ∉ kv.2) :
    (∃ p', replace_text_in_paragraph p repl = .ok p') ∧
    ((∀ kv ∈ repl, ∀ pat ∈ PLACEHOLDER_PATTERNS,
        reSearchWrapped pat kv.1 p.text = false) →
      replace_text_in_paragraph p repl = .ok p) := by
  constructor
  · obtain ⟨s, hs⟩ := substituteAll_ok repl (detectKeys repl p.text) p.text
      (fun k _ => templateOk_of_no_backslash (rowGet_no_backslash repl k hv))
    unfold replace_text_in_paragraph
    by_cases hk : (detectKeys repl p.text).isEmpty
    · rw [if_pos hk]
      exact ⟨p, rfl⟩
    · rw [if_neg hk, hs]
      simp only [Bind.bind, Except.bind]
      cases p.runs with
      | nil => exact ⟨_, rfl⟩
      | cons r0 rest => exact ⟨_, rfl⟩
  · intro h2
    exact replace_noop (detectKeys_eq_nil h2)

/-- Witness for C6 amended at a concrete input. -/
theorem C6_amended_never_raises_witness :
    (∃ p', replace_text_in_paragraph ⟨["\x7b\x7bk\x7d\x7d!".toList]⟩
        [("k".toList, "v1".toList)] = .ok p') ∧
    ((∀ kv ∈ ([("k".toList, "v1".toList)] : Row), ∀ pat ∈ PLACEHOLDER_PATTERNS,
        reSearchWrapped pat kv.1 (Paragraph.text ⟨["\x7b\x7bk\x7d\x7d!".toList]⟩) = false) →
      replace_text_in_paragraph ⟨["\x7b\x7bk\x7d\x7d!".toList]⟩
        [("k".toList, "v1".toList)] = .ok ⟨["\x7b\x7bk\x7d\x7d!".toList]⟩) :=
  C6_amended_never_raises ⟨["\x7b\x7bk\x7d\x7d!".toList]⟩
    [("k".toList, "v1".toList)] (by decide)

/-- C10: a data value reaches `re.sub` as a replacement template, not
verbatim text: value `\g<0>` for key `k` expands to the matched marker
itself (so the output differs from literally inserting the value), and
value `\1` for key `b` raises an invalid-group-reference error. -/
theorem C10_value_is_replacement_template :
    (replace_text_in_paragraph ⟨["\x7b\x7bk\x7d\x7d".toList]⟩
        [("k".toList, "\\g<0>".toList)] = .ok ⟨["\x7b\x7bk\x7d\x7d".toList]⟩ ∧
      ("\x7b\x7bk\x7d\x7d".toList : Str) ≠ "\\g<0>".toList) ∧
    replace_text_in_paragraph ⟨["$\x7bb\x7d".toList]⟩
        [("b".toList, "\\1".toList)] = .error () := by
  refine ⟨⟨?_, ?_⟩, ?_⟩
  · decide
  · decide
  · decide

/-! ### Helper lemmas about the filename synthesizer -/

/-- No wrapped pattern is found in an empty string. -/
lemma reSearchWrapped_nil (p : Pat) (k : Str) : reSearchWrapped p k [] = false := by
  cases p <;> simp [reSearchWrapped, matchWrappedAt, Pat.op, List.isPrefixOf]

/-- With an empty filename template, the substitution loop of
`generate_output_filename` changes nothing: no wrapped key is ever found,
so no `re.sub` call is guarded in. -/
lemma substituteFilename_nil_template (row : Row) : substituteFilename row [] = .ok [] := by
  unfold substituteFilename
  induction row with
  | nil => rfl
  | cons kv rest ih =>
    rw [List.foldlM_cons]
    have hinner : PLACEHOLDER_PATTERNS.foldlM
        (fun f p => if reSearchWrapped p kv.1 f then reSubWrapped p kv.1 kv.2 f else .ok f)
        ([] : Str) = .ok [] := by
      simp [PLACEHOLDER_PATTERNS, List.foldlM, reSearchWrapped_nil, Bind.bind, Except.bind,
        Pure.pure, Except.pure]
    rw [hinner]
    exact ih

/-- A digit is not one of the stripped filesystem-illegal characters. -/
lemma digit_not_illegal {c : Char} (h : c.isDigit = true) : isIllegalFilenameChar c = false := by
  unfold isIllegalFilenameChar
  simp only [Bool.or_eq_false_iff, decide_eq_false_iff_not]
  refine ⟨⟨⟨⟨⟨⟨⟨⟨?_, ?_⟩, ?_⟩, ?_⟩, ?_⟩, ?_⟩, ?_⟩, ?_⟩, ?_⟩ <;>
    (rintro rfl; exact absurd h (by decide))

/-- A digit is not whitespace. -/
lemma digit_not_space {c : Char} (h : c.isDigit = true) : isPySpace c = false := by
  unfold isPySpace
  simp only [Bool.or_eq_false_iff, decide_eq_false_iff_not]
  refine ⟨⟨⟨⟨⟨?_, ?_⟩, ?_⟩, ?_⟩, ?_⟩, ?_⟩ <;>
    (rintro rfl; exact absurd h (by decide))

/-- `dropWhile` keeps a list whose head fails the test. -/
lemma dropWhile_cons_false {pf : Char → Bool} {c : Char} {l : Str} (h : pf c = false) :
    (c :: l).dropWhile pf = c :: l := by
  rw [List.dropWhile_cons, h]
  simp

/-- `dropWhile` keeps a list none of whose elements pass the test. -/
lemma dropWhile_of_all_false {pf : Char → Bool} :
    ∀ {l : Str}, (∀ c ∈ l, pf c = false) → l.dropWhile pf = l
  | [], _ => rfl
  | c :: rest, h => by
    rw [List.dropWhile_cons, h c (List.mem_cons_self c rest)]
    simp

/-- `strip()` keeps a whitespace-free string. -/
lemma pyStrip_eq_self {s : Str} (h : ∀ c ∈ s, isPySpace c = false) : pyStrip s = s := by
  unfold pyStrip
  rw [dropWhile_of_all_false h,
    dropWhile_of_all_false (fun c hc => h c (List.mem_reverse.mp hc)),
    List.reverse_reverse]

/-- The sanitizer distributes over append. -/
lemma sanitizeFilename_append (a b : Str) :
    sanitizeFilename (a ++ b) = sanitizeFilename a ++ sanitizeFilename b :=
  List.filter_append a b

/-- The sanitizer keeps a string with no illegal character. -/
lemma sanitizeFilename_of_legal {s : Str} (h : ∀ c ∈ s, isIllegalFilenameChar c = false) :
    sanitizeFilename s = s :=
  List.filter_eq_self.mpr (fun c hc => by simp [h c hc])

/-- `strip()` on a string ending in `_` + digits: only the leading part
can be stripped, and the stripping stops at the underscore. -/
lemma pyStrip_append_digits {A ts : Str} (hts : ts ≠ [])
    (hd : ∀ c ∈ ts, c.isDigit = true) :
    pyStrip (A ++ '_' :: ts) = A.dropWhile isPySpace ++ '_' :: ts := by
  obtain ⟨c, r, hcr⟩ := List.exists_cons_of_ne_nil
    (l := ts.reverse) (by simpa using hts)
  have hc_mem : c ∈ ts := List.mem_reverse.mp (by rw [hcr]; exact List.mem_cons_self c r)
  have hc_ws : isPySpace c = false := digit_not_space (hd c hc_mem)
  have h1 : (A ++ '_' :: ts).dropWhile isPySpace = A.dropWhile isPySpace ++ '_' :: ts := by
    rw [List.dropWhile_append]
    by_cases hA : (A.dropWhile isPySpace).isEmpty
    · rw [if_pos hA, dropWhile_cons_false (by decide),
        List.isEmpty_iff.mp hA, List.nil_append]
    · rw [if_neg hA]
  unfold pyStrip
  rw [h1]
  have h2 : (A.dropWhile isPySpace ++ '_' :: ts).reverse =
      c :: (r ++ '_' :: (A.dropWhile isPySpace).reverse) := by
    rw [List.reverse_append, List.reverse_cons, hcr]
    simp
  rw [h2, dropWhile_cons_false hc_ws, ← h2, List.reverse_reverse]

/-! ### Claims C7, C8 -/

/-- C7 counterexample: with an empty filename template and a row with no
usable values, the claim's fallback would produce one fixed literal
default name; the code instead produces timestamp-dependent names, so two
timestamps give two different filenames. -/
theorem C7_counterexample_no_fixed_default :
    generate_output_filename [] [] "20260101000000".toList ≠
      generate_output_filename [] [] "20260101000001".toList := by
  decide

/-- C7 amended: there is no column-list fallback policy; with no template
supplied the synthesizer still runs the template policy, so the filename
is exactly underscore + timestamp + the fixed extension. -/
theorem C7_amended_always_template_policy (row : Row) (ts : Str)
    (hd : ∀ c ∈ ts, c.isDigit = true) (hlen : ts.length ≤ 99) :
    generate_output_filename row [] ts = .ok ('_' :: ts ++ ".docx".toList) := by
  unfold generate_output_filename
  rw [substituteFilename_nil_template]
  have hsan : sanitizeFilename (([] : Str) ++ '_' :: ts) = '_' :: ts := by
    rw [List.nil_append]
    exact sanitizeFilename_of_legal (by
      intro c hc
      rcases List.mem_cons.mp hc with h | h
      · subst h; decide
      · exact digit_not_illegal (hd c h))
  have hstrip : pyStrip ('_' :: ts) = '_' :: ts := by
    apply pyStrip_eq_self
    intro c hc
    rcases List.mem_cons.mp hc with h | h
    · subst h; decide
    · exact digit_not_space (hd c h)
  simp only [Bind.bind, Except.bind, hsan, hstrip]
  rw [List.take_of_length_le (by simpa using Nat.succ_le_succ hlen)]

/-- Witness for C7 amended at a concrete input. -/
theorem C7_amended_always_template_policy_witness :
    generate_output_filename [("x".toList, "1".toList)] [] "20260101000000".toList =
      .ok ('_' :: "20260101000000".toList ++ ".docx".toList) :=
  C7_amended_always_template_policy [("x".toList, "1".toList)] "20260101000000".toList
    (by decide) (by decide)

/-- C8 counterexample: when the substituted template part alone reaches
the 100-character truncation limit, the appended timestamp is cut off, so
two rows with equal substituted strings and different second-resolution
timestamps collide on the same filename. -/
theorem C8_counterexample_truncation_collision :
    generate_output_filename [] (List.replicate 100 'a') "20260101000000".toList =
      generate_output_filename [] (List.replicate 100 'a') "20260101000001".toList ∧
    ("20260101000000".toList : Str) ≠ "20260101000001".toList := by
  constructor
  · decide
  · decide

/-- C8 amended: the appended timestamp guarantees uniqueness only below
the truncation limit: if two rows substitute the template to the same
string and the stripped sanitized name (with timestamp) fits in 100
characters, different equal-length digit timestamps give different
filenames. -/
theorem C8_amended_unique_below_limit (row1 row2 : Row) (template s ts1 ts2 : Str)
    (h1 : substituteFilename row1 template = .ok s)
    (h2 : substituteFilename row2 template = .ok s)
    (hne : ts1 ≠ ts2) (hlen : ts1.length = ts2.length)
    (hd1 : ∀ c ∈ ts1, c.isDigit = true) (hd2 : ∀ c ∈ ts2, c.isDigit = true)
    (hn1 : ts1 ≠ []) (hn2 : ts2 ≠ [])
    (hshort : (pyStrip (sanitizeFilename (s ++ '_' :: ts1))).length ≤ 100) :
    generate_output_filename row1 template ts1 ≠
      generate_output_filename row2 template ts2 := by
  have hsan1 : sanitizeFilename (s ++ '_' :: ts1) = sanitizeFilename s ++ '_' :: ts1 := by
    rw [sanitizeFilename_append]
    congr 1
    exact sanitizeFilename_of_legal (by
      intro c hc
      rcases List.mem_cons.mp hc with h | h
      · subst h; decide
      · exact digit_not_illegal (hd1 c h))
  have hsan2 : sanitizeFilename (s ++ '_' :: ts2) = sanitizeFilename s ++ '_' :: ts2 := by
    rw [sanitizeFilename_append]
    congr 1
    exact sanitizeFilename_of_legal (by
      intro c hc
      rcases List.mem_cons.mp hc with h | h
      · subst h; decide
      · exact digit_not_illegal (hd2 c h))
  have hstrip1 : pyStrip (sanitizeFilename s ++ '_' :: ts1) =
      (sanitizeFilename s).dropWhile isPySpace ++ '_' :: ts1 :=
    pyStrip_append_digits hn1 hd1
  have hstrip2 : pyStrip (sanitizeFilename s ++ '_' :: ts2) =
      (sanitizeFilename s).dropWhile isPySpace ++ '_' :: ts2 :=
    pyStrip_append_digits hn2 hd2
  have hL1 : ((sanitizeFilename s).dropWhile isPySpace ++ '_' :: ts1).length ≤ 100 := by
    rw [hsan1, hstrip1] at hshort
    exact hshort
  have hL2 : ((sanitizeFilename s).dropWhile isPySpace ++ '_' :: ts2).length ≤ 100 := by
    have : ((sanitizeFilename s).dropWhile isPySpace ++ '_' :: ts2).length =
        ((sanitizeFilename s).dropWhile isPySpace ++ '_' :: ts1).length := by
      simp [List.length_append, hlen]
    rw [this]
    exact hL1
  unfold generate_output_filename
  rw [h1, h2]
  simp only [Bind.bind, Except.bind, hsan1, hsan2, hstrip1, hstrip2,
    List.take_of_length_le hL1, List.take_of_length_le hL2]
  intro heq
  rw [Except.ok.injEq] at heq
  have heq2 := List.append_cancel_right heq
  have heq3 := List.append_cancel_left heq2
  exact hne (by injection heq3)

/-- Witness for C8 amended at a concrete input. -/
theorem C8_amended_unique_below_limit_witness :
    generate_output_filename [] ['t'] "20260101000000".toList ≠
      generate_output_filename [] ['t'] "20260101000001".toList :=
  C8_amended_unique_below_limit [] [] ['t'] ['t']
    "20260101000000".toList "20260101000001".toList
    (by decide) (by decide) (by decide) (by decide) (by decide) (by decide)
    (by decide) (by decide) (by decide)

/-! ### Helper lemmas about the batch loop -/

/-- Fold invariant of the batch loop: every row is accounted for exactly
once (as a new record or as a failure), the success counter tracks the
record count, and every record comes from the accumulator or from a row
whose document processing succeeded. -/
lemma batch_fold_invariant (doc : Doc) (tmpl ts : Str) :
    ∀ (rows : List Row) (n : Nat) (acc res : BatchResult),
      (List.enumFrom n rows).foldlM (batchStep doc tmpl ts) acc = .ok res →
      res.records.length +
          (rows.filter (fun r => (process_document doc r).isNone)).length =
        acc.records.length + rows.length ∧
      res.successCount +
          (rows.filter (fun r => (process_document doc r).isNone)).length =
        acc.successCount + rows.length ∧
      ∀ x ∈ res.records, x ∈ acc.records ∨
        n ≤ x.1 ∧ ∃ r, rows[x.1 - n]? = some r ∧
          (process_document doc r).isSome = true := by
  intro rows
  induction rows with
  | nil =>
    intro n acc res hok
    have hres : acc = res := by
      have : (Except.ok acc : Except Unit BatchResult) = .ok res := hok
      injection this
    subst hres
    exact ⟨by simp, by simp, fun x hx => Or.inl hx⟩
  | cons r rest ih =>
    intro n acc res hok
    have henum : List.enumFrom n (r :: rest) = (n, r) :: List.enumFrom (n + 1) rest := rfl
    rw [henum, List.foldlM_cons] at hok
    cases hgen : generate_output_filename r tmpl ts with
    | error e =>
      have hstep : batchStep doc tmpl ts acc (n, r) = .error e := by
        unfold batchStep
        rw [hgen]
        rfl
      rw [hstep] at hok
      exact absurd hok (by simp [Bind.bind, Except.bind])
    | ok fname =>
      cases hproc : process_document doc r with
      | some d =>
        have hstep : batchStep doc tmpl ts acc (n, r) =
            .ok ⟨acc.records ++ [(n, fname)], acc.successCount + 1⟩ := by
          unfold batchStep
          rw [hgen]
          simp [Bind.bind, Except.bind, hproc]
        rw [hstep] at hok
        obtain ⟨hc1, hc2, hmem⟩ := ih (n + 1) _ res hok
        dsimp only at hc1 hc2
        have hfilter : (r :: rest).filter (fun r2 => (process_document doc r2).isNone) =
            rest.filter (fun r2 => (process_document doc r2).isNone) := by
          simp [List.filter_cons, hproc]
        refine ⟨?_, ?_, ?_⟩
        · rw [hfilter]
          simp only [List.length_append, List.length_cons, List.length_nil] at hc1 ⊢
          omega
        · rw [hfilter]
          simp only [List.length_append, List.length_cons, List.length_nil] at hc2 ⊢
          omega
        · intro x hx
          rcases hmem x hx with hmem1 | ⟨hle, r2, hget, hsome⟩
          · rcases List.mem_append.mp hmem1 with h | h
            · exact Or.inl h
            · have hx2 : x = (n, fname) := by simpa using h
              subst hx2
              refine Or.inr ⟨le_rfl, r, ?_, by simp [hproc]⟩
              simp
          · refine Or.inr ⟨by omega, r2, ?_, hsome⟩
            have hidx : x.1 - n = (x.1 - (n + 1)) + 1 := by omega
            rw [hidx]
            simpa using hget
      | none =>
        have hstep : batchStep doc tmpl ts acc (n, r) = .ok acc := by
          unfold batchStep
          rw [hgen]
          simp [Bind.bind, Except.bind, hproc]
        rw [hstep] at hok
        obtain ⟨hc1, hc2, hmem⟩ := ih (n + 1) acc res hok
        have hfilter : (r :: rest).filter (fun r2 => (process_document doc r2).isNone) =
            r :: rest.filter (fun r2 => (process_document doc r2).isNone) := by
          simp [List.filter_cons, hproc]
        refine ⟨?_, ?_, ?_⟩
        · rw [hfilter]
          simp only [List.length_cons] at hc1 ⊢
          omega
        · rw [hfilter]
          simp only [List.length_append, List.length_cons, List.length_nil] at hc2 ⊢
          omega
        · intro x hx
          rcases hmem x hx with hmem1 | ⟨hle, r2, hget, hsome⟩
          · exact Or.inl hmem1
          · refine Or.inr ⟨by omega, r2, ?_, hsome⟩
            have hidx : x.1 - n = (x.1 - (n + 1)) + 1 := by omega
            rw [hidx]
            simpa using hget

/-! ### Claims C4, C9 -/

/-- C4 counterexample: the data source of this one-row batch has no
column `r`, yet the batch does not abort with zero rows processed: the
row is processed and succeeds. -/
theorem C4_counterexample_missing_column_no_abort :
    (∀ kv ∈ ([("a".toList, "x".toList)] : Row), kv.1 ≠ "r".toList) ∧
    runBatch [[("a".toList, "x".toList)]] ⟨[⟨["\x7b\x7ba\x7d\x7d".toList]⟩], [], []⟩
        ['f'] "20260101000000".toList =
      .ok ⟨[(0, "f_20260101000000.docx".toList)], 1⟩ := by
  constructor
  · decide
  · decide

/-- C4 amended: the batch block performs no required-column validation:
for any list of required columns, even when one of them is absent from
every row, a batch that completes still accounts for every row — each is
attempted (success or failure), none skipped by a pre-batch abort. -/
theorem C4_amended_no_required_column_validation (required : List Str) (rows : List Row)
    (doc : Doc) (tmpl ts : Str) (res : BatchResult)
    (_habsent : ∃ c ∈ required, ∀ row ∈ rows, ∀ kv ∈ row, kv.1 ≠ c)
    (hok : runBatch rows doc tmpl ts = .ok res) :
    res.records.length + failedCount rows doc = rows.length := by
  obtain ⟨hc1, _, _⟩ := batch_fold_invariant doc tmpl ts rows 0 ⟨[], 0⟩ res hok
  simpa [failedCount] using hc1

/-- Witness for C4 amended at a concrete input. -/
theorem C4_amended_no_required_column_validation_witness :
    (⟨[(0, "f_20260101000000.docx".toList)], 1⟩ : BatchResult).records.length +
        failedCount [[("a".toList, "x".toList)]] ⟨[⟨["\x7b\x7ba\x7d\x7d".toList]⟩], [], []⟩ =
      ([[("a".toList, "x".toList)]] : List Row).length :=
  C4_amended_no_required_column_validation ["r".toList] [[("a".toList, "x".toList)]]
    ⟨[⟨["\x7b\x7ba\x7d\x7d".toList]⟩], [], []⟩ ['f'] "20260101000000".toList
    ⟨[(0, "f_20260101000000.docx".toList)], 1⟩
    ⟨"r".toList, by decide, by decide⟩ (by decide)

/-- C9: in a completed batch, every row is accounted for exactly once —
successes (records) plus failures equal the total row count — the
success counter equals the record count, and a row whose document
processing raises (so its save step was skipped and it got no output)
contributes no record. -/
theorem C9_per_row_failure_containment (rows : List Row) (doc : Doc) (tmpl ts : Str)
    (res : BatchResult) (hok : runBatch rows doc tmpl ts = .ok res) :
    res.records.length + failedCount rows doc = rows.length ∧
    res.successCount = res.records.length ∧
    ∀ i r, rows[i]? = some r → (process_document doc r).isNone = true →
      ∀ fn, (i, fn) ∉ res.records := by
  obtain ⟨hc1, hc2, hmem⟩ := batch_fold_invariant doc tmpl ts rows 0 ⟨[], 0⟩ res hok
  refine ⟨by simpa [failedCount] using hc1, ?_, ?_⟩
  · dsimp only at hc1 hc2
    simp only [List.length_nil] at hc1 hc2
    omega
  · intro i r hget hnone fn hmem2
    rcases hmem (i, fn) hmem2 with h | ⟨_, r2, hget2, hsome⟩
    · simp at h
    · have : r2 = r := by
        rw [Nat.sub_zero] at hget2
        rw [hget] at hget2
        injection hget2.symm
      subst this
      rw [Option.isNone_iff_eq_none.mp hnone] at hsome
      simp at hsome

/-- Witness for C9 at a concrete three-row batch whose middle row fails
(its value is the invalid replacement template `\1`). -/
theorem C9_per_row_failure_containment_witness :
    (⟨[(0, "f_20260101000000.docx".toList), (2, "f_20260101000000.docx".toList)], 2⟩ :
          BatchResult).records.length +
        failedCount [[("a".toList, "x".toList)], [("a".toList, "\\1".toList)],
          [("a".toList, "y".toList)]] ⟨[⟨["\x7b\x7ba\x7d\x7d".toList]⟩], [], []⟩ =
      ([[("a".toList, "x".toList)], [("a".toList, "\\1".toList)],
        [("a".toList, "y".toList)]] : List Row).length ∧
    (⟨[(0, "f_20260101000000.docx".toList), (2, "f_20260101000000.docx".toList)], 2⟩ :
          BatchResult).successCount =
      (⟨[(0, "f_20260101000000.docx".toList), (2, "f_20260101000000.docx".toList)], 2⟩ :
          BatchResult).records.length ∧
    ∀ i r, ([[("a".toList, "x".toList)], [("a".toList, "\\1".toList)],
        [("a".toList, "y".toList)]] : List Row)[i]? = some r →
      (process_document ⟨[⟨["\x7b\x7ba\x7d\x7d".toList]⟩], [], []⟩ r).isNone = true →
      ∀ fn, (i, fn) ∉ (⟨[(0, "f_20260101000000.docx".toList),
        (2, "f_20260101000000.docx".toList)], 2⟩ : BatchResult).records :=
  C9_per_row_failure_containment
    [[("a".toList, "x".toList)], [("a".toList, "\\1".toList)], [("a".toList, "y".toList)]]
    ⟨[⟨["\x7b\x7ba\x7d\x7d".toList]⟩], [], []⟩ ['f'] "20260101000000".toList
    ⟨[(0, "f_20260101000000.docx".toList), (2, "f_20260101000000.docx".toList)], 2⟩
    (by decide)

/-! ### Helper lemmas about the generic-pattern scanner (`find_placeholders`) -/

lemma simpleNameChar_spec {c : Char} (h : simpleNameChar c = true) :
    ¬(c = '\x7b') ∧ ¬(c = '\x7d') ∧ ¬(c = '$') ∧ ¬(c = '[') ∧ ¬(c = ']') ∧
      isPySpace c = false := by
  unfold simpleNameChar at h
  rw [Bool.not_eq_true'] at h
  simp only [Bool.or_eq_false_iff, decide_eq_false_iff_not] at h
  exact ⟨h.1.1.1.1.1, h.1.1.1.1.2, h.1.1.1.2, h.1.1.2, h.1.2, h.2⟩

lemma simpleNameChar_not_nl {c : Char} (h : simpleNameChar c = true) : ¬(c = '\n') := by
  intro hEq
  have := (simpleNameChar_spec h).2.2.2.2.2
  rw [hEq] at this
  exact absurd this (by decide)

lemma simpleNameChar_ne_clHead {c : Char} (p : Pat) (h : simpleNameChar c = true) :
    ¬(c = clHead p) := by
  cases p
  · exact (simpleNameChar_spec h).2.1
  · exact (simpleNameChar_spec h).2.1
  · exact (simpleNameChar_spec h).2.1
  · exact (simpleNameChar_spec h).2.2.2.2.1

lemma simpleNameChar_ne_opHead {c : Char} (p : Pat) (h : simpleNameChar c = true) :
    ¬(c = opHead p) := by
  cases p
  · exact (simpleNameChar_spec h).1
  · exact (simpleNameChar_spec h).2.2.1
  · exact (simpleNameChar_spec h).1
  · exact (simpleNameChar_spec h).2.2.2.1

/-- An `isPrefixOf` test fails when the heads differ. -/
lemma isPrefixOf_cons_false {a b : Char} {as bs : Str} (h : ¬(b = a)) :
    (a :: as).isPrefixOf (b :: bs) = false := by
  have hbe : (a == b) = false := by
    simpa [beq_iff_eq] using fun hEq => h hEq.symm
  simp [List.isPrefixOf, hbe]

/-- The opening marker is not a prefix of a string starting with a
different character. -/
lemma not_op_of_head_ne (p : Pat) {c : Char} (v : Str) (h : ¬(c = opHead p)) :
    p.op.isPrefixOf (c :: v) = false := by
  cases p <;> exact isPrefixOf_cons_false (by simpa [opHead] using h)

/-- The double-brace opening marker is not a prefix of a lone brace
followed by a simple-name character. -/
lemma not_dbrace_after_brace {c2 : Char} (v : Str) (h : simpleNameChar c2 = true) :
    Pat.dbrace.op.isPrefixOf ('\x7b' :: c2 :: v) = false := by
  have hne : ¬(c2 = '\x7b') := (simpleNameChar_spec h).1
  have hbe : (('\x7b' : Char) == c2) = false := by
    simpa [beq_iff_eq] using fun hEq => hne hEq.symm
  simp [Pat.op, List.isPrefixOf, hbe]

/-- A whitespace run does not start at a non-whitespace head. -/
lemma wsRun_cons_zero {c : Char} (rest : Str) (h : isPySpace c = false) :
    wsRun (c :: rest) = 0 := by
  simp [wsRun, List.takeWhile_cons, h]

/-- `goLazy` over a block whose characters are non-space, non-newline and
never start the close marker: the block is absorbed into the lazy
count. -/
lemma goLazy_skip (cl : Str) :
    ∀ (u v : Str),
      (∀ c ∈ u, isPySpace c = false ∧ ¬(c = '\n')) →
      (∀ i, i < u.length → cl.isPrefixOf (u.drop i ++ v) = false) →
      goLazy cl (u ++ v) = (goLazy cl v).map (fun q => (q.1 + u.length, q.2)) := by
  intro u
  induction u with
  | nil =>
    intro v _ _
    rw [List.nil_append]
    cases goLazy cl v <;> rfl
  | cons c u ih =>
    intro v hchar hcl
    obtain ⟨hws, hnl⟩ := hchar c (List.mem_cons_self c u)
    have hstep : goLazy cl (c :: (u ++ v)) =
        (goLazy cl (u ++ v)).map (fun q => (q.1 + 1, q.2)) := by
      have h0 : cl.isPrefixOf ((c :: (u ++ v)).drop (wsRun (c :: (u ++ v)))) = false := by
        rw [wsRun_cons_zero _ hws, List.drop_zero]
        have := hcl 0 (Nat.succ_pos _)
        simpa using this
      simp only [goLazy]
      rw [h0]
      simp only [Bool.false_eq_true, if_false]
      rw [if_neg hnl]
    rw [List.cons_append, hstep,
      ih v (fun c2 h2 => hchar c2 (List.mem_cons_of_mem c h2))
        (fun i hi => by
          have := hcl (i + 1) (Nat.succ_lt_succ hi)
          simpa using this)]
    cases goLazy cl v <;> rfl

/-- The close marker is a prefix of itself plus anything. -/
lemma cl_isPrefixOf_append (p : Pat) (v : Str) : p.cl.isPrefixOf (p.cl ++ v) = true :=
  List.isPrefixOf_iff_prefix.mpr (List.prefix_append _ _)

/-- `goLazy` succeeds immediately at the close marker. -/
lemma goLazy_at_close (p : Pat) (v : Str) : goLazy p.cl (p.cl ++ v) = some (0, 0) := by
  have hpre := cl_isPrefixOf_append p v
  cases p <;>
    · simp only [Pat.cl, List.cons_append] at hpre ⊢
      simp only [goLazy]
      rw [wsRun_cons_zero _ (by decide), List.drop_zero, hpre]
      simp

/-- The lazy match at the very start of a wrapped marker
`open ++ name ++ close ++ rest`: the capture is exactly the name, the
match spans the marker. -/
lemma matchLazyAt_marker (p : Pat) (m v : Str)
    (hm : ∀ c ∈ m, isPySpace c = false ∧ ¬(c = '\n') ∧ ¬(c = clHead p)) :
    matchLazyAt p (p.op ++ (m ++ (p.cl ++ v))) =
      some (m, p.op.length + m.length + p.cl.length) := by
  have hop : p.op.isPrefixOf (p.op ++ (m ++ (p.cl ++ v))) = true :=
    List.isPrefixOf_iff_prefix.mpr (List.prefix_append _ _)
  have hclcons : ∃ ch tl, p.cl = ch :: tl ∧ isPySpace ch = false ∧ ch = clHead p := by
    cases p <;> exact ⟨_, _, rfl, by decide, rfl⟩
  obtain ⟨ch, tl, hcl, hchws, hchhd⟩ := hclcons
  have ha : wsRun (m ++ (p.cl ++ v)) = 0 := by
    cases m with
    | nil =>
      rw [List.nil_append, hcl, List.cons_append, wsRun_cons_zero _ hchws]
    | cons c m2 =>
      rw [List.cons_append, wsRun_cons_zero _ (hm c (List.mem_cons_self c m2)).1]
  have hgo : goLazy p.cl (m ++ (p.cl ++ v)) = some (m.length, 0) := by
    rw [goLazy_skip p.cl m (p.cl ++ v) (fun c hc => ⟨(hm c hc).1, (hm c hc).2.1⟩)
        (fun i hi => by
          have hne : m.drop i ≠ [] := by
            intro hnil
            have := List.length_drop i m
            rw [hnil] at this
            simp at this
            omega
          obtain ⟨c, w, hw⟩ := List.exists_cons_of_ne_nil hne
          have hcmem : c ∈ m := List.mem_of_mem_drop (hw ▸ List.mem_cons_self c w)
          rw [hw, List.cons_append, hcl]
          refine isPrefixOf_cons_false ?_
          rw [hchhd]
          exact (hm c hcmem).2.2),
      goLazy_at_close p v]
    simp
  unfold matchLazyAt
  rw [if_pos hop, List.drop_left, ha, List.drop_zero, hgo]
  simp [List.take_left]

/-- A successful lazy match consumes at least one character. -/
lemma matchLazyAt_pos (p : Pat) {s : Str} {q : Str × Nat}
    (h : matchLazyAt p s = some q) : 1 ≤ q.2 := by
  unfold matchLazyAt at h
  by_cases hpre : p.op.isPrefixOf s = true
  · rw [if_pos hpre] at h
    cases hgo : goLazy p.cl ((s.drop p.op.length).drop (wsRun (s.drop p.op.length))) with
    | none =>
      rw [hgo] at h
      exact absurd h (by simp)
    | some q2 =>
      rw [hgo] at h
      have h2 : some (((s.drop p.op.length).drop (wsRun (s.drop p.op.length))).take q2.1,
          p.op.length + wsRun (s.drop p.op.length) + q2.1 + q2.2 + p.cl.length) = some q := h
      have h3 := Option.some.inj h2
      have hq2 : q.2 = p.op.length + wsRun (s.drop p.op.length) + q2.1 + q2.2 + p.cl.length := by
        rw [← h3]
      have hop1 : 1 ≤ p.op.length := by cases p <;> decide
      omega
  · rw [if_neg hpre] at h
    exact absurd h (by simp)

/-- No lazy match starts where the opening marker is not a prefix. -/
lemma matchLazyAt_none_of_not_op (p : Pat) (s : Str) (h : p.op.isPrefixOf s = false) :
    matchLazyAt p s = none := by
  unfold matchLazyAt
  rw [h]
  simp

/-- The scan yields nothing on the empty string, for any fuel. -/
lemma findScanF_nil (p : Pat) : ∀ f, findScanF p f [] = [] := by
  intro f
  cases f <;> rfl

/-- The scan result does not depend on the fuel, once the fuel covers the
text length. -/
lemma findScanF_fuel (p : Pat) :
    ∀ (fuel1 fuel2 : Nat) (s : Str), s.length ≤ fuel1 → s.length ≤ fuel2 →
      findScanF p fuel1 s = findScanF p fuel2 s := by
  intro fuel1
  induction fuel1 with
  | zero =>
    intro fuel2 s h1 _
    have hs : s = [] := List.eq_nil_of_length_eq_zero (Nat.le_zero.mp h1)
    subst hs
    rw [findScanF_nil, findScanF_nil]
  | succ f ih =>
    intro fuel2 s h1 h2
    cases s with
    | nil => rw [findScanF_nil, findScanF_nil]
    | cons c rest =>
      cases fuel2 with
      | zero => exact absurd h2 (by simp)
      | succ g =>
        simp only [findScanF]
        cases hm : matchLazyAt p (c :: rest) with
        | none =>
          exact ih g rest (Nat.le_of_succ_le_succ (by simpa using h1))
            (Nat.le_of_succ_le_succ (by simpa using h2))
        | some q =>
          have hpos := matchLazyAt_pos p hm
          show q.1 :: findScanF p f ((c :: rest).drop q.2) =
            q.1 :: findScanF p g ((c :: rest).drop q.2)
          congr 1
          apply ih
          · rw [List.length_drop]
            simp only [List.length_cons] at h1 ⊢
            omega
          · rw [List.length_drop]
            simp only [List.length_cons] at h2 ⊢
            omega

/-- Scanning a marker at the head of the text: emit the name, continue
after the marker. -/
lemma findScanF_marker (p : Pat) (m v : Str) (fuel : Nat)
    (hm : ∀ c ∈ m, isPySpace c = false ∧ ¬(c = '\n') ∧ ¬(c = clHead p))
    (hf : (p.op ++ (m ++ (p.cl ++ v))).length ≤ fuel) :
    findScanF p fuel (p.op ++ (m ++ (p.cl ++ v))) = m :: findScanF p v.length v := by
  obtain ⟨ch, tl, hop⟩ : ∃ ch tl, p.op = ch :: tl := by cases p <;> exact ⟨_, _, rfl⟩
  have hs : p.op ++ (m ++ (p.cl ++ v)) = ch :: (tl ++ (m ++ (p.cl ++ v))) := by
    rw [hop, List.cons_append]
  cases fuel with
  | zero =>
    rw [hs] at hf
    exact absurd hf (by simp)
  | succ f =>
    rw [hs]
    simp only [findScanF]
    rw [← hs, matchLazyAt_marker p m v hm]
    have hdrop : (p.op ++ (m ++ (p.cl ++ v))).drop (p.op.length + m.length + p.cl.length) = v := by
      have hassoc : p.op ++ (m ++ (p.cl ++ v)) = (p.op ++ m ++ p.cl) ++ v := by
        simp [List.append_assoc]
      have hlen : p.op.length + m.length + p.cl.length = (p.op ++ m ++ p.cl).length := by
        simp only [List.length_append]
      rw [hassoc, hlen, List.drop_left]
    show m :: findScanF p f ((p.op ++ (m ++ (p.cl ++ v))).drop
      (p.op.length + m.length + p.cl.length)) = m :: findScanF p v.length v
    rw [hdrop]
    congr 1
    apply findScanF_fuel
    · have hop1 : 1 ≤ p.op.length := by cases p <;> decide
      simp only [List.length_append] at hf
      omega
    · exact le_rfl

/-- Scanning a block inside which no opening marker starts skips it. -/
lemma findScanF_skip (p : Pat) :
    ∀ (u v : Str) (fuel : Nat), NoOp p u v → (u ++ v).length ≤ fuel →
      findScanF p fuel (u ++ v) = findScanF p v.length v := by
  intro u
  induction u with
  | nil =>
    intro v fuel _ hf
    rw [List.nil_append]
    exact findScanF_fuel p fuel v.length v (by simpa using hf) le_rfl
  | cons c u ih =>
    intro v fuel hu hf
    cases fuel with
    | zero => exact absurd hf (by simp)
    | succ f =>
      rw [List.cons_append]
      simp only [findScanF]
      have h0 : matchLazyAt p (c :: (u ++ v)) = none := by
        apply matchLazyAt_none_of_not_op
        have := hu 0 (Nat.succ_pos _)
        simpa using this
      rw [h0]
      refine ih v f (fun i hi => by simpa using hu (i + 1) (Nat.succ_lt_succ hi)) ?_
      simp only [List.length_append, List.length_cons] at hf ⊢
      omega

lemma NoOp_nil (p : Pat) (v : Str) : NoOp p [] v := fun i hi => absurd hi (by simp)

lemma NoOp_cons (p : Pat) (c : Char) (u v : Str)
    (hhead : p.op.isPrefixOf (c :: (u ++ v)) = false) (htail : NoOp p u v) :
    NoOp p (c :: u) v := by
  intro i hi
  cases i with
  | zero => simpa using hhead
  | succ j =>
    have := htail j (Nat.lt_of_succ_lt_succ hi)
    simpa using this

lemma NoOp_append {p : Pat} {u1 u2 v : Str}
    (h1 : NoOp p u1 (u2 ++ v)) (h2 : NoOp p u2 v) : NoOp p (u1 ++ u2) v := by
  intro i hi
  rcases Nat.lt_or_ge i u1.length with hc | hc
  · have := h1 i hc
    rw [List.drop_append_eq_append_drop]
    have h0 : i - u1.length = 0 := by omega
    rw [h0, List.drop_zero, List.append_assoc]
    exact this
  · rw [List.drop_append_eq_append_drop]
    rw [List.drop_eq_nil_of_le hc, List.nil_append]
    apply h2
    simp only [List.length_append] at hi
    omega

/-- A block all of whose characters differ from the opening marker's
head never starts an opening marker. -/
lemma NoOp_of_heads (p : Pat) :
    ∀ (u : Str), (∀ c ∈ u, ¬(c = opHead p)) → ∀ (v : Str), NoOp p u v := by
  intro u
  induction u with
  | nil => exact fun _ v => NoOp_nil p v
  | cons c u ih =>
    intro h v
    refine NoOp_cons p c u v ?_ (ih (fun c2 h2 => h c2 (List.mem_cons_of_mem c h2)) v)
    exact not_op_of_head_ne p (u ++ v) (h c (List.mem_cons_self c u))

/-- A simple name never starts an opening marker. -/
lemma NoOp_name (p : Pat) (n : Str) (hn : ∀ c ∈ n, simpleNameChar c = true) (v : Str) :
    NoOp p n v :=
  NoOp_of_heads p n (fun c hc => simpleNameChar_ne_opHead p (hn c hc)) v

/-- Composition of suffix-generic `NoOp` blocks. -/
lemma NoOp_append_forall {p : Pat} {u1 u2 : Str}
    (h1 : ∀ v, NoOp p u1 v) (h2 : ∀ v, NoOp p u2 v) : ∀ v, NoOp p (u1 ++ u2) v :=
  fun v => NoOp_append (h1 (u2 ++ v)) (h2 v)

/-- A lone brace followed by a simple name does not start a double-brace
opening marker. -/
lemma NoOp_dbrace_brace_name (n : Str) (hn : SimpleName n) (v : Str) :
    NoOp .dbrace ('\x7b' :: n) v := by
  obtain ⟨hne, hsimple⟩ := hn
  obtain ⟨c2, w, hw⟩ := List.exists_cons_of_ne_nil hne
  refine NoOp_cons _ _ _ _ ?_ (NoOp_name _ n hsimple v)
  rw [hw, List.cons_append]
  exact not_dbrace_after_brace _ (hsimple c2 (hw ▸ List.mem_cons_self c2 w))

/-- Marker conditions from a simple name, for any pattern. -/
lemma simpleName_marker_cond (p : Pat) {n : Str} (hn : ∀ c ∈ n, simpleNameChar c = true) :
    ∀ c ∈ n, isPySpace c = false ∧ ¬(c = '\n') ∧ ¬(c = clHead p) := by
  intro c hc
  exact ⟨(simpleNameChar_spec (hn c hc)).2.2.2.2.2, simpleNameChar_not_nl (hn c hc),
    simpleNameChar_ne_clHead p (hn c hc)⟩

/-- The ending tail `] ]` is empty-scan for every pattern. -/
lemma reFindall_skip_to_nil (p : Pat) (u : Str) (hu : NoOp p u []) :
    findScanF p u.length u = [] := by
  have h2 := findScanF_skip p u [] (u ++ []).length hu le_rfl
  rw [List.append_nil] at h2
  rw [h2, findScanF_nil]
/-- `findall` of the double-brace pattern on the canonical text: exactly
the first name. -/
lemma reFindall_dbrace_canonical (n1 n2 n3 n4 : Str)
    (h1 : SimpleName n1) (h2 : SimpleName n2) (h3 : SimpleName n3) (h4 : SimpleName n4) :
    reFindall .dbrace (canonicalText n1 n2 n3 n4) = [n1] := by
  have hX : ∀ v, NoOp .dbrace
      ([' ', '$'] ++ (('\x7b' :: n2) ++ (['\x7d', ' '] ++ (('\x7b' :: n3) ++
        (['\x7d', ' ', '[', '['] ++ (n4 ++ [']', ']'])))))) v :=
    NoOp_append_forall (NoOp_of_heads _ _ (by decide))
      (NoOp_append_forall (NoOp_dbrace_brace_name n2 h2)
        (NoOp_append_forall (NoOp_of_heads _ _ (by decide))
          (NoOp_append_forall (NoOp_dbrace_brace_name n3 h3)
            (NoOp_append_forall (NoOp_of_heads _ _ (by decide))
              (NoOp_append_forall (NoOp_name _ n4 h4.2) (NoOp_of_heads _ _ (by decide)))))))
  have ht : canonicalText n1 n2 n3 n4 =
      Pat.dbrace.op ++ (n1 ++ (Pat.dbrace.cl ++
        ([' ', '$'] ++ (('\x7b' :: n2) ++ (['\x7d', ' '] ++ (('\x7b' :: n3) ++
          (['\x7d', ' ', '[', '['] ++ (n4 ++ [']', ']'])))))))) := by
    simp [canonicalText, Pat.op, Pat.cl]
  unfold reFindall
  rw [ht, findScanF_marker .dbrace n1 _ _ (simpleName_marker_cond .dbrace h1.2) le_rfl,
    reFindall_skip_to_nil .dbrace _ (hX [])]

/-- `findall` of the dollar-brace pattern on the canonical text: exactly
the second name. -/
lemma reFindall_dollar_canonical (n1 n2 n3 n4 : Str)
    (h1 : SimpleName n1) (h2 : SimpleName n2) (h3 : SimpleName n3) (h4 : SimpleName n4) :
    reFindall .dollar (canonicalText n1 n2 n3 n4) = [n2] := by
  have hU : ∀ v, NoOp .dollar (['\x7b', '\x7b'] ++ (n1 ++ ['\x7d', '\x7d', ' '])) v :=
    NoOp_append_forall (NoOp_of_heads _ _ (by decide))
      (NoOp_append_forall (NoOp_name _ n1 h1.2) (NoOp_of_heads _ _ (by decide)))
  have hV : ∀ v, NoOp .dollar
      ([' ', '\x7b'] ++ (n3 ++ (['\x7d', ' ', '[', '['] ++ (n4 ++ [']', ']'])))) v :=
    NoOp_append_forall (NoOp_of_heads _ _ (by decide))
      (NoOp_append_forall (NoOp_name _ n3 h3.2)
        (NoOp_append_forall (NoOp_of_heads _ _ (by decide))
          (NoOp_append_forall (NoOp_name _ n4 h4.2) (NoOp_of_heads _ _ (by decide)))))
  have ht : canonicalText n1 n2 n3 n4 =
      (['\x7b', '\x7b'] ++ (n1 ++ ['\x7d', '\x7d', ' '])) ++
        (Pat.dollar.op ++ (n2 ++ (Pat.dollar.cl ++
          ([' ', '\x7b'] ++ (n3 ++ (['\x7d', ' ', '[', '['] ++ (n4 ++ [']', ']']))))))) := by
    simp [canonicalText, Pat.op, Pat.cl]
  unfold reFindall
  rw [ht, findScanF_skip .dollar _ _ _ (hU _) le_rfl,
    findScanF_marker .dollar n2 _ _ (simpleName_marker_cond .dollar h2.2) le_rfl,
    reFindall_skip_to_nil .dollar _ (hV [])]

/-- `findall` of the double-bracket pattern on the canonical text:
exactly the fourth name. -/
lemma reFindall_dbracket_canonical (n1 n2 n3 n4 : Str)
    (h1 : SimpleName n1) (h2 : SimpleName n2) (h3 : SimpleName n3) (h4 : SimpleName n4) :
    reFindall .dbracket (canonicalText n1 n2 n3 n4) = [n4] := by
  have hU : ∀ v, NoOp .dbracket
      (['\x7b', '\x7b'] ++ (n1 ++ (['\x7d', '\x7d', ' ', '$', '\x7b'] ++ (n2 ++
        (['\x7d', ' ', '\x7b'] ++ (n3 ++ ['\x7d', ' '])))))) v :=
    NoOp_append_forall (NoOp_of_heads _ _ (by decide))
      (NoOp_append_forall (NoOp_name _ n1 h1.2)
        (NoOp_append_forall (NoOp_of_heads _ _ (by decide))
          (NoOp_append_forall (NoOp_name _ n2 h2.2)
            (NoOp_append_forall (NoOp_of_heads _ _ (by decide))
              (NoOp_append_forall (NoOp_name _ n3 h3.2) (NoOp_of_heads _ _ (by decide)))))))
  have ht : canonicalText n1 n2 n3 n4 =
      (['\x7b', '\x7b'] ++ (n1 ++ (['\x7d', '\x7d', ' ', '$', '\x7b'] ++ (n2 ++
        (['\x7d', ' ', '\x7b'] ++ (n3 ++ ['\x7d', ' '])))))) ++
        (Pat.dbracket.op ++ (n4 ++ (Pat.dbracket.cl ++ []))) := by
    simp [canonicalText, Pat.op, Pat.cl]
  unfold reFindall
  rw [ht, findScanF_skip .dbracket _ _ _ (hU _) le_rfl,
    findScanF_marker .dbracket n4 _ _ (simpleName_marker_cond .dbracket h4.2) le_rfl,
    findScanF_nil]

/-- `findall` of the single-brace pattern on the canonical text: the
overlap capture `{` + first name (from inside the double-brace marker),
the second name (from inside the dollar-brace marker), and the third
name. -/
lemma reFindall_sbrace_canonical (n1 n2 n3 n4 : Str)
    (h1 : SimpleName n1) (h2 : SimpleName n2) (h3 : SimpleName n3) (h4 : SimpleName n4) :
    reFindall .sbrace (canonicalText n1 n2 n3 n4) = ['\x7b' :: n1, n2, n3] := by
  have hm1 : ∀ c ∈ ('\x7b' :: n1), isPySpace c = false ∧ ¬(c = '\n') ∧
      ¬(c = clHead .sbrace) := by
    intro c hc
    rcases List.mem_cons.mp hc with h | h
    · subst h
      exact ⟨by decide, by decide, by decide⟩
    · exact simpleName_marker_cond .sbrace h1.2 c h
  have hU2 : ∀ v, NoOp .sbrace ['\x7d', ' ', '$'] v := NoOp_of_heads _ _ (by decide)
  have hU3 : ∀ v, NoOp .sbrace [' '] v := NoOp_of_heads _ _ (by decide)
  have hV3 : ∀ v, NoOp .sbrace ([' ', '[', '['] ++ (n4 ++ [']', ']'])) v :=
    NoOp_append_forall (NoOp_of_heads _ _ (by decide))
      (NoOp_append_forall (NoOp_name _ n4 h4.2) (NoOp_of_heads _ _ (by decide)))
  have ht : canonicalText n1 n2 n3 n4 =
      Pat.sbrace.op ++ (('\x7b' :: n1) ++ (Pat.sbrace.cl ++ (['\x7d', ' ', '$'] ++ (Pat.sbrace.op ++ (n2 ++ (Pat.sbrace.cl ++ ([' '] ++ (Pat.sbrace.op ++ (n3 ++ (Pat.sbrace.cl ++ (([' ', '[', '['] ++ (n4 ++ [']', ']']))))))))))))) := by
    simp [canonicalText, Pat.op, Pat.cl]
  unfold reFindall
  rw [ht, findScanF_marker .sbrace ('\x7b' :: n1) _ _ hm1 le_rfl,
    findScanF_skip .sbrace _ _ _ (hU2 _) le_rfl,
    findScanF_marker .sbrace n2 _ _ (simpleName_marker_cond .sbrace h2.2) le_rfl,
    findScanF_skip .sbrace _ _ _ (hU3 _) le_rfl,
    findScanF_marker .sbrace n3 _ _ (simpleName_marker_cond .sbrace h3.2) le_rfl,
    reFindall_skip_to_nil .sbrace _ (hV3 [])]

/-! ### Claim C5 -/

/-- C5: on a text containing exactly one occurrence of a placeholder in
each of the four syntaxes (the canonical space-separated text, for any
simple names), `find_placeholders` returns a de-duplicated collection
that includes all four placeholder names.  The per-syntax scans are the
expected singletons; the single-brace scan additionally captures the
brace-overlap artifact of the double-brace marker, which the claim's
"includes" wording permits. -/
theorem C5_findall_returns_all_four_names (n1 n2 n3 n4 : Str)
    (h1 : SimpleName n1) (h2 : SimpleName n2) (h3 : SimpleName n3) (h4 : SimpleName n4) :
    (reFindall .dbrace (canonicalText n1 n2 n3 n4) = [n1] ∧
      reFindall .dollar (canonicalText n1 n2 n3 n4) = [n2] ∧
      reFindall .sbrace (canonicalText n1 n2 n3 n4) = ['\x7b' :: n1, n2, n3] ∧
      reFindall .dbracket (canonicalText n1 n2 n3 n4) = [n4]) ∧
    (n1 ∈ find_placeholders (canonicalText n1 n2 n3 n4) ∧
      n2 ∈ find_placeholders (canonicalText n1 n2 n3 n4) ∧
      n3 ∈ find_placeholders (canonicalText n1 n2 n3 n4) ∧
      n4 ∈ find_placeholders (canonicalText n1 n2 n3 n4)) ∧
    (find_placeholders (canonicalText n1 n2 n3 n4)).Nodup := by
  have e1 := reFindall_dbrace_canonical n1 n2 n3 n4 h1 h2 h3 h4
  have e2 := reFindall_dollar_canonical n1 n2 n3 n4 h1 h2 h3 h4
  have e3 := reFindall_sbrace_canonical n1 n2 n3 n4 h1 h2 h3 h4
  have e4 := reFindall_dbracket_canonical n1 n2 n3 n4 h1 h2 h3 h4
  have hfp : find_placeholders (canonicalText n1 n2 n3 n4) =
      ([n1, n2, '\x7b' :: n1, n2, n3, n4] : List Str).dedup := by
    unfold find_placeholders PLACEHOLDER_PATTERNS
    simp [e1, e2, e3, e4]
  refine ⟨⟨e1, e2, e3, e4⟩, ⟨?_, ?_, ?_, ?_⟩, ?_⟩
  · rw [hfp, List.mem_dedup]
    simp
  · rw [hfp, List.mem_dedup]
    simp
  · rw [hfp, List.mem_dedup]
    simp
  · rw [hfp, List.mem_dedup]
    simp
  · rw [hfp]
    exact List.nodup_dedup _

/-- Witness for C5 at the concrete names `a b c d`. -/
theorem C5_findall_returns_all_four_names_witness :
    (reFindall .dbrace (canonicalText ['a'] ['b'] ['c'] ['d']) = [['a']] ∧
      reFindall .dollar (canonicalText ['a'] ['b'] ['c'] ['d']) = [['b']] ∧
      reFindall .sbrace (canonicalText ['a'] ['b'] ['c'] ['d']) = [['\x7b', 'a'], ['b'], ['c']] ∧
      reFindall .dbracket (canonicalText ['a'] ['b'] ['c'] ['d']) = [['d']]) ∧
    (['a'] ∈ find_placeholders (canonicalText ['a'] ['b'] ['c'] ['d']) ∧
      ['b'] ∈ find_placeholders (canonicalText ['a'] ['b'] ['c'] ['d']) ∧
      ['c'] ∈ find_placeholders (canonicalText ['a'] ['b'] ['c'] ['d']) ∧
      ['d'] ∈ find_placeholders (canonicalText ['a'] ['b'] ['c'] ['d'])) ∧
    (find_placeholders (canonicalText ['a'] ['b'] ['c'] ['d'])).Nodup :=
  C5_findall_returns_all_four_names ['a'] ['b'] ['c'] ['d']
    (by constructor <;> decide) (by constructor <;> decide)
    (by constructor <;> decide) (by constructor <;> decide)


end Wordscreate
